import Mathlib

/-!
# Verification of the Metals-Market-Analysis ETL and analytics pipeline

Shallow embedding of the Python sources under `backend/` and `dashboard/`:
`etl_pipeline.py`, `seed_data.py`, `scheduler.py`, `analytics.py`.
Prices are modelled as rationals, timestamps as explicit calendar records
or hour counters, the relational store as a list of fact rows, and the
Python module namespaces as explicit option-valued bindings.
-/

set_option autoImplicit false

namespace Metals

/-! ## Generic helpers -/

/-- Python substring test `pat in s`, on character lists. -/
def listHasInfix (pat : List Char) : List Char → Bool
  | [] => pat.isEmpty
  | c :: rest => pat.isPrefixOf (c :: rest) || listHasInfix pat rest

/-- Python substring test `pat in s` on strings. -/
def strHas (s pat : String) : Bool := listHasInfix pat.data s.data

/-- Python `str.lower()`, character by character. -/
def lowerStr (s : String) : String := ⟨s.data.map Char.toLower⟩

/-- Decimal parsing of a digit string (`int(...)` on `strftime` output). -/
def parseNatAux : List Char → Nat → Nat
  | [], acc => acc
  | c :: rest, acc => parseNatAux rest (acc * 10 + (c.toNat - '0'.toNat))

/-- Decimal parsing of a digit string. -/
def parseNat (s : String) : Nat := parseNatAux s.data 0

/-- Python `str.replace` on character lists, fuel-structured: replace
every non-overlapping occurrence of `pat`, left to right. `fuel` bounds
the consumed characters; callers pass the input length, which suffices
because each step consumes at least one character. -/
def replaceListAux (pat repl : List Char) : Nat → List Char → List Char
  | 0, l => l
  | _ + 1, [] => []
  | fuel + 1, c :: rest =>
    if pat.isEmpty then c :: rest
    else if pat.isPrefixOf (c :: rest) then
      repl ++ replaceListAux pat repl fuel ((c :: rest).drop pat.length)
    else c :: replaceListAux pat repl fuel rest

/-- Python `s.replace(pat, repl)` on strings. -/
def strReplace (s pat repl : String) : String :=
  ⟨replaceListAux pat.data repl.data s.data.length s.data⟩

/-- First-occurrence deduplication, skipping anything already `seen`. -/
def uniqueFirstAux (seen : List String) : List String → List String
  | [] => []
  | x :: xs =>
    if seen.contains x then uniqueFirstAux seen xs
    else x :: uniqueFirstAux (x :: seen) xs

/-- `pandas.Series.unique`: first-occurrence deduplication, preserving
encounter order. -/
def uniqueFirst (l : List String) : List String := uniqueFirstAux [] l

/-! ## Time bucketer (`seed_data.get_or_create_time_id`) -/

/-- A wall-clock instant as the Python `datetime` fields the code reads. -/
structure Datetime where
  year : Nat
  month : Nat
  day : Nat
  hour : Nat
  minute : Nat
  second : Nat
deriving DecidableEq, Repr

/-- Zero-padded two-digit decimal rendering, as `strftime` `%m`/`%d`/`%H`. -/
def pad2 (n : Nat) : String := if n < 10 then "0" ++ toString n else toString n

/-- `timestamp_dt.strftime("%Y%m%d%H")`. -/
def strftimeYmdH (t : Datetime) : String :=
  toString t.year ++ pad2 t.month ++ pad2 t.day ++ pad2 t.hour

/-- `int(timestamp_dt.strftime("%Y%m%d%H"))` — the surrogate time key. -/
def timeIdOf (t : Datetime) : Nat := parseNat (strftimeYmdH t)

/-- `timestamp_dt.isoformat()` (seconds precision). -/
def isoformat (t : Datetime) : String :=
  toString t.year ++ "-" ++ pad2 t.month ++ "-" ++ pad2 t.day ++ "T" ++
    pad2 t.hour ++ ":" ++ pad2 t.minute ++ ":" ++ pad2 t.second

/-- `timestamp_dt.date().isoformat()`. -/
def isoDate (t : Datetime) : String :=
  toString t.year ++ "-" ++ pad2 t.month ++ "-" ++ pad2 t.day

/-- The `dim_time` row upserted by `get_or_create_time_id`
(`seed_data.py` lines 24–32). -/
structure TimeBucketRecord where
  id : Nat
  timestamp : String
  date : String
  day : Nat
  month : Nat
  year : Nat
  hour : Nat
deriving DecidableEq, Repr

/-- The record `get_or_create_time_id` writes for an instant. -/
def timeBucketRecordOf (t : Datetime) : TimeBucketRecord :=
  ⟨timeIdOf t, isoformat t, isoDate t, t.day, t.month, t.year, t.hour⟩

/-- Truncation of an instant to its hour. -/
def truncHour (t : Datetime) : Datetime :=
  ⟨t.year, t.month, t.day, t.hour, 0, 0⟩

/-- Two instants fall in the same hour. -/
def sameHour (a b : Datetime) : Prop :=
  a.year = b.year ∧ a.month = b.month ∧ a.day = b.day ∧ a.hour = b.hour

instance (a b : Datetime) : Decidable (sameHour a b) := by
  unfold sameHour; infer_instance

/-! ## Fact store (`fact_metal_prices` with its four-column unique key) -/

/-- One row of `fact_metal_prices` as built by `etl_pipeline.run_etl`
(lines 88–95) and `seed_data.seed_history` (lines 92–110). -/
structure FactRecord where
  metal_id : Nat
  market_id : Nat
  time_id : Nat
  price : ℚ
  currency : String
  unit : String
deriving DecidableEq, Repr

/-- The declared uniqueness key `(metal_id, market_id, time_id, currency)`
(`on_conflict="metal_id,market_id,time_id,currency"`). -/
def factKey (r : FactRecord) : Nat × Nat × Nat × String :=
  (r.metal_id, r.market_id, r.time_id, r.currency)

/-- The fact table: a list of rows. -/
def FactStore := List FactRecord

/-- Store-side semantics of `supabase…upsert(record, on_conflict=key)`:
replace the row holding the same four-column key, else append.
(Postgres `INSERT … ON CONFLICT key DO UPDATE`, per the spec glossary:
"insert-or-update-on-conflict, keyed by a declared uniqueness constraint".) -/
def upsertFact (s : FactStore) (r : FactRecord) : FactStore :=
  match s with
  | [] => [r]
  | x :: xs => if factKey x = factKey r then r :: xs else x :: upsertFact xs r

/-- Upsert a batch of records in order. -/
def upsertFacts (s : FactStore) (rs : List FactRecord) : FactStore :=
  rs.foldl upsertFact s

/-- Look up the row holding a given four-column key. -/
def lookupFact (k : Nat × Nat × Nat × String) : FactStore → Option FactRecord
  | [] => none
  | x :: xs => if factKey x = k then some x else lookupFact k xs

/-- The key-uniqueness invariant: no two rows share the four-column key. -/
def NodupKeys (s : FactStore) : Prop := (s.map factKey).Nodup

/-- The last record of a batch holding a given key (the value an upsert
sequence leaves behind). -/
def lastWith (k : Nat × Nat × Nat × String) : List FactRecord → Option FactRecord
  | [] => none
  | r :: rs => (lastWith k rs).or (if factKey r = k then some r else none)

/-! ## ETL module (`etl_pipeline.py`) -/

/-- The top-level names bound in `backend/etl_pipeline.py`, read off the
imported names (lines 1–6) and top-level assignments/defs
(lines 10–150). -/
def etlPipelineGlobalNames : List String :=
  ["os", "requests", "logging", "datetime", "load_dotenv", "create_client",
   "Client", "logger", "METALS_API_KEY",
   "SUPABASE_URL", "SUPABASE_KEY", "API_URL", "supabase",
   "fetch_metals_data", "run_etl"]

/-- The top-level names bound in `backend/seed_data.py` (imports lines 1–6,
assignments/defs lines 9–131). -/
def seedDataGlobalNames : List String :=
  ["os", "random", "logging", "datetime", "timedelta", "load_dotenv",
   "create_client", "Client", "logger", "SUPABASE_URL", "SUPABASE_KEY",
   "supabase", "get_or_create_time_id", "seed_history"]

/-- The helper bindings `run_etl` looks up at call time:
`get_or_create_dimension` (a dimension resolver `(table, column, value) → id`,
whose contract spec §4.2 gives as lookup-or-insert returning a stable
surrogate id, abstracted here as a pure function that may return `none` on
a store failure) and `get_or_create_time_id` (which returns `none` when
the time-bucket write fails, per `seed_data.py` lines 36–38). A `none`
binding models an unbound Python name, whose use raises `NameError`. -/
structure EtlGlobals where
  dimResolver : Option (String → String → String → Option Nat)
  timeResolver : Option (Datetime → Option Nat)

/-- The bindings the ETL module actually provides for those two helper
names: neither `get_or_create_dimension` nor `get_or_create_time_id`
appears in `etlPipelineGlobalNames`, so both are unbound. -/
def etlActualGlobals : EtlGlobals := ⟨none, none⟩

/-- A successfully fetched and parsed API payload for one currency: the
`metals` mapping as an association list in iteration order, and the parsed
timestamp (lines 55–59 of `etl_pipeline.py`, fallbacks already applied). -/
structure ApiPayload where
  metals : List (String × ℚ)
  ts : Datetime

/-- The per-key classification inside the metals loop of `run_etl`
(`etl_pipeline.py` lines 67–82): keys without `silver` (case-insensitive)
are skipped; the metal name is the hard-coded `"Silver"`; `_mcx` keys go
to market `"MCX"`; otherwise `_lbma`/`_am`/`_pm` keys are skipped;
everything else goes to market `"Spot"`. Returns the
(metal name, market name) pair, or `none` when the key is skipped. -/
def classifyKey (key : String) : Option (String × String) :=
  if ¬ strHas (lowerStr key) "silver" then none
  else if strHas key "_mcx" then some ("Silver", "MCX")
  else if strHas key "_lbma" || strHas key "_am" || strHas key "_pm" then none
  else some ("Silver", "Spot")

/-- The fact row one loop iteration upserts for a key, if any:
classification (lines 67–82), metal-dimension resolution (line 85), the
truthiness guard `if metal_id and market_id and time_id` (line 87) and
the record built at lines 88–95. -/
def etlFactFor (dim : String → String → String → Option Nat)
    (spotId mcxId : Option Nat) (time_id : Nat) (currency : String)
    (kp : String × ℚ) : Option FactRecord :=
  match classifyKey kp.1 with
  | none => none
  | some (metal, mkt) =>
    let market_id := if mkt = "MCX" then mcxId else spotId
    match dim "dim_metal" "metal_name" metal, market_id with
    | some mid, some mkid =>
      if mid ≠ 0 ∧ mkid ≠ 0 ∧ time_id ≠ 0 then
        some ⟨mid, mkid, time_id, kp.2, currency, "toz"⟩
      else none
    | _, _ => none

/-- All fact rows the metals loop upserts for a payload, in loop order. -/
def etlFactRecords (dim : String → String → String → Option Nat)
    (spotId mcxId : Option Nat) (time_id : Nat) (currency : String)
    (metals : List (String × ℚ)) : List FactRecord :=
  metals.filterMap (etlFactFor dim spotId mcxId time_id currency)

/-- `run_etl` (`etl_pipeline.py` lines 38–146) for the single configured
currency `"INR"` (line 41). Parameters: the module bindings for the two
helper names, the fetched/parsed API response (`none` models a fetch
failure or a body without `metals`, lines 50–53), and the fact store.
Using an unbound name raises `NameError`, modelled as `.error`; the
successful store writes of the loop are folded into the returned store. -/
def runEtl (g : EtlGlobals) (fetched : Option ApiPayload) (s : FactStore) :
    Except String FactStore :=
  match g.dimResolver with
  | none => .error "NameError: name get_or_create_dimension is not defined"
  | some dim =>
    let market_id_spot := dim "dim_market" "market_name" "Spot"
    let market_id_mcx := dim "dim_market" "market_name" "MCX"
    match fetched with
    | none => .ok s
    | some data =>
      match g.timeResolver with
      | none => .error "NameError: name get_or_create_time_id is not defined"
      | some timeRes =>
        match timeRes data.ts with
        | none => .ok s
        | some time_id =>
          if time_id = 0 then .ok s
          else
            .ok (data.metals.foldl (fun st kp =>
              match etlFactFor dim market_id_spot market_id_mcx time_id "INR"
                  kp with
              | some r => upsertFact st r
              | none => st) s)

/-- The fact rows one `run_etl` call upserts, given working helper
bindings: empty when the fetch failed or the time id resolved falsy,
otherwise the loop records of `etlFactRecords`. -/
def etlRunRecords (dim : String → String → String → Option Nat)
    (timeRes : Datetime → Option Nat) (fetched : Option ApiPayload) :
    List FactRecord :=
  match fetched with
  | none => []
  | some data =>
    match timeRes data.ts with
    | none => []
    | some time_id =>
      if time_id = 0 then []
      else
        etlFactRecords dim (dim "dim_market" "market_name" "Spot")
          (dim "dim_market" "market_name" "MCX") time_id "INR" data.metals

/-- Outcome of one scheduled run as the wrapper reports it. -/
inductive JobOutcome
  | completed
  | loggedError (msg : String)
deriving DecidableEq, Repr

/-- `scheduler.job` (`scheduler.py` lines 17–22): run the ETL, catching
and logging any exception; the store is untouched past the point of
failure. -/
def schedulerJob (g : EtlGlobals) (fetched : Option ApiPayload) (s : FactStore) :
    JobOutcome × FactStore :=
  match runEtl g fetched s with
  | .ok s2 => (.completed, s2)
  | .error e => (.loggedError e, s)

/-! ## Analytics frame (`analytics.py`) -/

/-- One row of the joined fact+dimension frame built by
`get_data_for_analytics` (lines 40–53): columns `price, metal, market`
plus the timestamp. The frame is sorted by timestamp (line 52), so list
order is chronological. Timestamps are modelled as hours since an epoch;
`resample('D')` buckets rows by the calendar day `ts / 24`. -/
structure Row where
  price : ℚ
  metal : String
  market : String
  ts : Nat
deriving DecidableEq, Repr

/-- Calendar day of an hour-counter timestamp. -/
def dayOf (ts : Nat) : Nat := ts / 24

/-- `df[(df['metal'] == metal) & (df['market'] == market)]` — the
(metal, market) slice of the frame, in chronological order. -/
def pairSubset (df : List Row) (metal market : String) : List Row :=
  df.filter (fun r => r.metal = metal ∧ r.market = market)

/-- `series.resample('D').last()` restricted to the days that have data,
for a chronologically ordered `(day, price)` series: the last observation
of each calendar day, in day order. -/
def dailyLast : List (Nat × ℚ) → List (Nat × ℚ)
  | [] => []
  | [x] => [x]
  | x :: y :: rest =>
    if x.1 = y.1 then dailyLast (y :: rest) else x :: dailyLast (y :: rest)

/-- `series.pct_change()` with the leading `NaN` dropped (missing interior
days of a resampled series are forward-filled by the default fill, so each
entry compares consecutive available observations). -/
def pctReturns : List ℚ → List ℚ
  | [] => []
  | [_] => []
  | x :: y :: rest => (y / x - 1) :: pctReturns (y :: rest)

/-- `series.pct_change() * 100`, leading `NaN` dropped. -/
def pctChanges (l : List ℚ) : List ℚ := (pctReturns l).map (· * 100)

/-- `analytics.calculate_daily_change` (lines 59–71): filter to the
(metal, market) pair, `None` on an empty subset; otherwise resample to
daily last, take percentage changes, and return the last available change
— or `0.0` when no change exists (fewer than two daily points). -/
def calculate_daily_change (df : List Row) (metal_name market_name : String) :
    Option ℚ :=
  let subset := pairSubset df metal_name market_name
  if subset.isEmpty then none
  else
    let daily := dailyLast (subset.map (fun r => (dayOf r.ts, r.price)))
    some ((pctChanges (daily.map Prod.snd)).getLast?.getD 0)

/-- An alert record emitted by `detect_volatility` (lines 116–121);
`date` is `subset.index[-1]`, the timestamp of the last observation. -/
structure Alert where
  metal : String
  market : String
  change : ℚ
  date : Nat
deriving DecidableEq, Repr

/-- One (metal, market) cell of the `detect_volatility` loop
(`analytics.py` lines 104–121): skip pairs with fewer than two rows, else
take the last point-to-point percentage change of the chronological
slice and alert when its magnitude exceeds the threshold. -/
def spikeFor (df : List Row) (threshold_pct : ℚ) (metal market : String) :
    Option Alert :=
  if (pairSubset df metal market).length < 2 then none
  else
    (pctChanges ((pairSubset df metal market).map Row.price)).getLast?.bind
      (fun c => (pairSubset df metal market).getLast?.bind (fun lastRow =>
        if threshold_pct < |c| then some ⟨metal, market, c, lastRow.ts⟩
        else none))

/-- `analytics.detect_volatility` (lines 97–123): the nested loop over
first-seen metals and markets, collecting the per-pair alerts. -/
def detect_volatility (df : List Row) (threshold_pct : ℚ) : List Alert :=
  (uniqueFirst (df.map Row.metal)).flatMap (fun metal =>
    (uniqueFirst (df.map Row.market)).filterMap (fun market =>
      spikeFor df threshold_pct metal market))

/-- Arithmetic mean (`0` on the empty list, which no caller reaches). -/
def meanQ (l : List ℚ) : ℚ := l.sum / l.length

/-- Sample variance (denominator `n − 1`), `none` when fewer than two
points — exactly where `pandas` `.std()` is `NaN`. The ranking in
`identify_most_volatile` compares standard deviations; squaring is
strictly monotone on them, so comparing variances ranks identically while
staying inside `ℚ`. -/
def sampleVarQ (l : List ℚ) : Option ℚ :=
  if l.length < 2 then none
  else some ((l.map (fun x => (x - meanQ l) ^ 2)).sum / ((l.length : ℚ) - 1))

/-- Python `a > b` between possibly-`NaN` scores: any comparison with
`NaN` is false. -/
def pyGt : Option ℚ → Option ℚ → Bool
  | some a, some b => b < a
  | _, _ => false

/-- The fold step of Python `max(..., key=...)`: replace the current best
only when the candidate compares strictly greater (so a `NaN` score never
displaces the leader and, once leading, is never displaced). -/
def pickOpt (best cand : String × Option ℚ) : String × Option ℚ :=
  if pyGt cand.2 best.2 then cand else best

/-- The same fold step over plain (all-present) scores. -/
def pickQ (best cand : String × ℚ) : String × ℚ :=
  if best.2 < cand.2 then cand else best

/-- Tag a plain score as present (relates the Python max over
possibly-missing scores to the max over plain ones). -/
def someScore (p : String × ℚ) : String × Option ℚ := (p.1, some p.2)

/-- Python `max(scores, key=scores.get)` over an insertion-ordered dict:
start from the first entry and fold with `pickOpt`. -/
def pyMaxByScore : List (String × Option ℚ) → Option String
  | [] => none
  | x :: xs => some ((xs.foldl pickOpt x).1)

/-- The per-metal volatility scores of `identify_most_volatile`
(`analytics.py` lines 129–141): per first-seen metal, take its Spot
subset, skip the metal when the subset has fewer than 3 rows (line 133:
`if len(subset) < 3`), otherwise score it by the deviation of daily
percentage returns (`NaN`, i.e. `none`, when fewer than two returns
exist). -/
def volatilityScores (df : List Row) : List (String × Option ℚ) :=
  (uniqueFirst (df.map Row.metal)).filterMap (fun metal =>
    if (pairSubset df metal "Spot").length < 3 then none
    else
      some (metal, sampleVarQ (pctReturns
        ((dailyLast ((pairSubset df metal "Spot").map
          (fun r => (dayOf r.ts, r.price)))).map Prod.snd))))

/-- `analytics.identify_most_volatile` (lines 125–146): the Python-`max`
metal of the volatility scores. -/
def identify_most_volatile (df : List Row) : Option String :=
  pyMaxByScore (volatilityScores df)

/-- Modelled from the spec (§4.4 most-volatile-instrument), for
comparison with `identify_most_volatile`: every metal with fewer than 3
daily points is excluded, the rest are scored by the deviation of
day-over-day returns of the daily-last resample, and the highest-scored
metal wins with ties broken by first-encountered order. -/
def specMostVolatile (df : List Row) : Option String :=
  pyMaxByScore ((uniqueFirst (df.map Row.metal)).filterMap (fun metal =>
    if (dailyLast ((pairSubset df metal "Spot").map
        (fun r => (dayOf r.ts, r.price)))).length < 3 then none
    else
      some (metal, sampleVarQ (pctReturns
        ((dailyLast ((pairSubset df metal "Spot").map
          (fun r => (dayOf r.ts, r.price)))).map Prod.snd)))))

/-! ## Premium/spread series (spec §4.4; no implementation under `src/`) -/

/-- Distance between two timestamps, in minutes. -/
def tdist (a b : Nat) : Nat := max a b - min a b

/-- Modelled from the spec: nearest-timestamp lookup with a tolerance —
the reference point closest to `t` (first wins on ties), or `none` when
the closest one is farther than `tol` minutes. -/
def nearestWithin (tol : Nat) (ref : List (Nat × ℚ)) (t : Nat) :
    Option (Nat × ℚ) :=
  match ref with
  | [] => none
  | b :: bs =>
    if tdist (bs.foldl (fun best cand =>
        if tdist cand.1 t < tdist best.1 t then cand else best) b).1 t ≤ tol
    then some (bs.foldl (fun best cand =>
        if tdist cand.1 t < tdist best.1 t then cand else best) b)
    else none

/-- Modelled from the spec: the premium/spread series operation (§4.4),
whose implementation is not under `src/` — align each futures point to the
nearest reference point within a 60-minute tolerance, drop futures points
with no reference within tolerance, and return
`(priceA − priceB) / priceB × 100` at each aligned (futures) timestamp.
Timestamps are in minutes. -/
def premiumSeries (futures reference : List (Nat × ℚ)) : List (Nat × ℚ) :=
  futures.filterMap (fun a =>
    match nearestWithin 60 reference a.1 with
    | some b => some (a.1, (a.2 - b.2) / b.2 * 100)
    | none => none)

/-! ## Historical seeding batch loop (`seed_data.seed_history`) -/

/-- State of the seeding loop: the accumulated unsent `records` list and
the log of issued upsert requests, in order. -/
structure SeedState where
  records : List FactRecord
  requests : List (List FactRecord)

/-- The batching loop of `seed_history` (`seed_data.py` lines 78–123).
Each element of `groups` is the list of records one timestep appends (the
Spot record plus the MCX record when `mcx_id` is set, or nothing when the
time-bucket write failed and the step is skipped). After appending, when
at least 100 records have accumulated the loop issues an upsert request
with all of them; `fail n` tells whether the store rejects the `n`-th
issued request — the except-branch (lines 120–121) only logs, leaving
`records` unreset, while a success resets it (line 119). -/
def seedLoop (fail : Nat → Bool) :
    List (List FactRecord) → SeedState → SeedState
  | [], st => st
  | grp :: rest, st =>
    let recs := st.records ++ grp
    if 100 ≤ recs.length then
      seedLoop fail rest
        ⟨if fail st.requests.length then recs else [], st.requests ++ [recs]⟩
    else
      seedLoop fail rest ⟨recs, st.requests⟩

/-- All upsert requests `seed_history` issues for a run: the loop
requests followed by the final flush of any nonempty remainder
(`seed_data.py` lines 125–126). -/
def seedRequests (fail : Nat → Bool) (groups : List (List FactRecord)) :
    List (List FactRecord) :=
  let st := seedLoop fail groups ⟨[], []⟩
  if st.records.isEmpty then st.requests else st.requests ++ [st.records]

/-! ## Startup configuration guards -/

/-- Python truthiness of an `os.getenv` result: `None` and `""` are
falsy. -/
def truthyEnv : Option String → Bool
  | none => false
  | some s => s ≠ ""

/-- Externally visible effects of module-level startup code. -/
inductive Effect
  | logError
  | exitProcess
  | createClient
  | apiCall
  | storeRead
  | storeWrite
deriving DecidableEq, Repr

/-- The shared module prologue of `etl_pipeline.py` (lines 16–26),
`analytics.py` (lines 14–21) and `seed_data.py` (lines 13–20): read the
required environment values and, if `not all(values)`, log and
`exit(1)` — before the store client is constructed and before any function
that could touch the API or the store is ever called. The trace lists the
effects in order; the remaining module body only defines functions. -/
def moduleStartup (required : List (Option String)) : List Effect :=
  if required.all truthyEnv then [Effect.createClient]
  else [Effect.logError, Effect.exitProcess]

/-- Startup of the ETL process: requires `METALS_DEV_API_KEY`,
`SUPABASE_URL`, `SUPABASE_KEY` (`etl_pipeline.py` lines 16–23). -/
def etlStartup (env : String → Option String) : List Effect :=
  moduleStartup [env "METALS_DEV_API_KEY", env "SUPABASE_URL", env "SUPABASE_KEY"]

/-- Startup of the analytics process: requires `SUPABASE_URL` and
`SUPABASE_KEY` (`analytics.py` lines 14–19; `seed_data.py` is
identical). -/
def analyticsStartup (env : String → Option String) : List Effect :=
  moduleStartup [env "SUPABASE_URL", env "SUPABASE_KEY"]

/-! ## Spec-side classification (for the C2 comparison) -/

/-- Python-style title-casing: first character upper, rest lower. -/
def titleCase (s : String) : String :=
  match s.data with
  | [] => ""
  | c :: rest => ⟨c.toUpper :: rest.map Char.toLower⟩

/-- Modelled from the spec (§4.1), for comparison with `classifyKey`: the
claimed general classification heuristic — a key containing `_mcx` maps to
market `"MCX"` with that suffix stripped; otherwise a key containing
`_lbma`, `_am` or `_pm` maps to `"LBMA"` with those stripped; otherwise
`"Spot"` with the key unchanged; the metal name is title-cased. -/
def specClassifyKey (key : String) : String × String :=
  if strHas key "_mcx" then (titleCase (strReplace key "_mcx" ""), "MCX")
  else if strHas key "_lbma" || strHas key "_am" || strHas key "_pm" then
    (titleCase (strReplace (strReplace (strReplace key "_lbma" "") "_am" "")
      "_pm" ""), "LBMA")
  else (titleCase key, "Spot")

end Metals

namespace Metals

/-! ## Shared lemmas -/

theorem pctReturns_length : ∀ l : List ℚ, (pctReturns l).length = l.length - 1
  | [] => rfl
  | [_] => rfl
  | x :: y :: rest => by
    simp only [pctReturns, List.length_cons]
    rw [pctReturns_length (y :: rest)]
    simp

theorem pctReturns_ne_nil {l : List ℚ} (h : 2 ≤ l.length) :
    pctReturns l ≠ [] := by
  intro hnil
  have := pctReturns_length l
  rw [hnil] at this
  simp at this
  omega

theorem pctReturns_getLast (q p : ℚ) :
    ∀ rest : List ℚ, (pctReturns (rest ++ [q, p])).getLast? = some (p / q - 1)
  | [] => rfl
  | [x] => rfl
  | x :: y :: rest => by
    have ih := pctReturns_getLast q p (y :: rest)
    have hne : pctReturns ((y :: rest) ++ [q, p]) ≠ [] :=
      pctReturns_ne_nil (by simp)
    obtain ⟨c, cs, hcs⟩ := List.exists_cons_of_ne_nil hne
    show ((y / x - 1) :: pctReturns ((y :: rest) ++ [q, p])).getLast?
        = some (p / q - 1)
    rw [hcs, List.getLast?_cons_cons, ← hcs, ih]

theorem pctChanges_getLast (q p : ℚ) (rest : List ℚ) :
    (pctChanges (rest ++ [q, p])).getLast? = some ((p / q - 1) * 100) := by
  rw [pctChanges, List.getLast?_map, pctReturns_getLast q p rest]
  rfl

theorem dailyLast_eq_nil : ∀ {l : List (Nat × ℚ)}, dailyLast l = [] → l = []
  | [], _ => rfl
  | [x], h => by simp [dailyLast] at h
  | x :: y :: rest, h => by
    simp only [dailyLast] at h
    split at h
    · exact absurd (dailyLast_eq_nil h) (List.cons_ne_nil _ _)
    · exact absurd h (List.cons_ne_nil _ _)

theorem mem_uniqueFirstAux (x : String) :
    ∀ (l seen : List String),
      (x ∈ uniqueFirstAux seen l ↔ x ∈ l ∧ x ∉ seen)
  | [], seen => by simp [uniqueFirstAux]
  | y :: ys, seen => by
    simp only [uniqueFirstAux]
    by_cases h : seen.contains y
    · rw [if_pos h, mem_uniqueFirstAux x ys seen]
      have hy : y ∈ seen := by simpa using h
      simp only [List.mem_cons]
      constructor
      · rintro ⟨h1, h2⟩
        exact ⟨Or.inr h1, h2⟩
      · rintro ⟨rfl | h1, h2⟩
        · exact absurd hy h2
        · exact ⟨h1, h2⟩
    · rw [if_neg h]
      have hy : y ∉ seen := by simpa using h
      simp only [List.mem_cons, mem_uniqueFirstAux x ys (y :: seen)]
      constructor
      · rintro (rfl | ⟨h1, h2⟩)
        · exact ⟨Or.inl rfl, hy⟩
        · exact ⟨Or.inr h1, fun hx => h2 (Or.inr hx)⟩
      · rintro ⟨rfl | h1, h2⟩
        · exact Or.inl rfl
        · by_cases hxy : x = y
          · exact Or.inl hxy
          · exact Or.inr ⟨h1, fun hx => hx.elim hxy h2⟩

theorem mem_uniqueFirst (x : String) (l : List String) :
    x ∈ uniqueFirst l ↔ x ∈ l := by
  rw [uniqueFirst, mem_uniqueFirstAux]
  simp

theorem mem_pairSubset {df : List Row} {metal market : String} {r : Row} :
    r ∈ pairSubset df metal market ↔
      r ∈ df ∧ r.metal = metal ∧ r.market = market := by
  simp [pairSubset]

theorem spikeFor_eq_some {df : List Row} {t : ℚ} {m mk : String} {a : Alert} :
    spikeFor df t m mk = some a ↔
      2 ≤ (pairSubset df m mk).length ∧
      ∃ c lr,
        (pctChanges ((pairSubset df m mk).map Row.price)).getLast? = some c ∧
        (pairSubset df m mk).getLast? = some lr ∧
        t < |c| ∧ a = ⟨m, mk, c, lr.ts⟩ := by
  unfold spikeFor
  by_cases hlen : (pairSubset df m mk).length < 2
  · rw [if_pos hlen]
    constructor
    · intro h
      exact absurd h (by simp)
    · rintro ⟨h, -⟩
      omega
  · rw [if_neg hlen]
    push_neg at hlen
    simp only [Option.bind_eq_some]
    constructor
    · rintro ⟨c, hc, lr, hlr, hif⟩
      split at hif
      · rename_i habs
        exact ⟨hlen, c, lr, hc, hlr, habs, (Option.some_inj.mp hif).symm⟩
      · exact absurd hif (by simp)
    · rintro ⟨-, c, lr, hc, hlr, habs, ha⟩
      exact ⟨c, hc, lr, hlr, by rw [if_pos habs, ha]⟩

theorem mem_detect_volatility {df : List Row} {t : ℚ} {a : Alert} :
    a ∈ detect_volatility df t ↔
      ∃ m mk, m ∈ df.map Row.metal ∧ mk ∈ df.map Row.market ∧
        spikeFor df t m mk = some a := by
  unfold detect_volatility
  simp only [List.mem_flatMap, List.mem_filterMap, mem_uniqueFirst]
  constructor
  · rintro ⟨m, hm, mk, hmk, h⟩
    exact ⟨m, mk, hm, hmk, h⟩
  · rintro ⟨m, mk, hm, hmk, h⟩
    exact ⟨m, hm, mk, hmk, h⟩

theorem lookupFact_upsertFact (r : FactRecord) (k : Nat × Nat × Nat × String) :
    ∀ s : FactStore, lookupFact k (upsertFact s r) =
      if factKey r = k then some r else lookupFact k s
  | [] => by
    simp [upsertFact, lookupFact]
  | x :: xs => by
    by_cases hx : factKey x = factKey r
    · simp only [upsertFact, if_pos hx, lookupFact]
      by_cases hk : factKey r = k
      · rw [if_pos hk, if_pos hk]
      · rw [if_neg hk, if_neg hk, if_neg (by rw [hx]; exact hk)]
    · simp only [upsertFact, if_neg hx, lookupFact]
      by_cases hxk : factKey x = k
      · rw [if_pos hxk, if_neg (by rw [← hxk]; exact fun h => hx h.symm),
          if_pos hxk]
      · rw [if_neg hxk, if_neg hxk, lookupFact_upsertFact r k xs]

theorem keys_upsertFact (r : FactRecord) :
    ∀ s : FactStore, (upsertFact s r).map factKey =
      if factKey r ∈ s.map factKey then s.map factKey
      else s.map factKey ++ [factKey r]
  | [] => by simp [upsertFact]
  | x :: xs => by
    by_cases hx : factKey x = factKey r
    · simp only [upsertFact, if_pos hx, List.map_cons]
      rw [if_pos (by simp [hx])]
      rw [hx]
    · simp only [upsertFact, if_neg hx, List.map_cons, keys_upsertFact r xs]
      by_cases hin : factKey r ∈ xs.map factKey
      · rw [if_pos hin, if_pos (by simp [hin])]
      · rw [if_neg hin, if_neg ?_, List.cons_append]
        simp only [List.mem_cons]
        push_neg
        exact ⟨fun he => hx he.symm, hin⟩

theorem nodupKeys_upsertFact {s : FactStore} (r : FactRecord)
    (h : NodupKeys s) : NodupKeys (upsertFact s r) := by
  unfold NodupKeys at h ⊢
  rw [keys_upsertFact]
  split
  · exact h
  · rename_i hnin
    rw [List.nodup_append]
    refine ⟨h, List.nodup_singleton _, ?_⟩
    intro a ha hb
    simp only [List.mem_singleton] at hb
    subst hb
    exact hnin ha

theorem lookupFact_eq_none {k : Nat × Nat × Nat × String} :
    ∀ {s : FactStore}, k ∉ s.map factKey → lookupFact k s = none
  | [], _ => rfl
  | x :: xs, h => by
    simp only [List.map_cons, List.mem_cons] at h
    push_neg at h
    show (if factKey x = k then some x else lookupFact k xs) = none
    rw [if_neg (fun he : factKey x = k => h.1 he.symm)]
    exact lookupFact_eq_none h.2

theorem mem_keys_of_lookupFact {k : Nat × Nat × Nat × String}
    {v : FactRecord} :
    ∀ {s : FactStore}, lookupFact k s = some v → k ∈ s.map factKey
  | [], h => by simp [lookupFact] at h
  | x :: xs, h => by
    rw [show lookupFact k (x :: xs)
        = (if factKey x = k then some x else lookupFact k xs) from rfl] at h
    simp only [List.map_cons, List.mem_cons]
    by_cases he : factKey x = k
    · exact Or.inl he.symm
    · rw [if_neg he] at h
      exact Or.inr (mem_keys_of_lookupFact h)

theorem lookupFact_upsertFacts (k : Nat × Nat × Nat × String) :
    ∀ (rs : List FactRecord) (s : FactStore),
      lookupFact k (upsertFacts s rs) = (lastWith k rs).or (lookupFact k s)
  | [], s => by simp [upsertFacts, lastWith, Option.or]
  | r :: rs, s => by
    show lookupFact k (upsertFacts (upsertFact s r) rs) = _
    rw [lookupFact_upsertFacts k rs (upsertFact s r),
      lookupFact_upsertFact r k s]
    simp only [lastWith]
    rcases lastWith k rs with _ | v
    · by_cases hk : factKey r = k <;> simp [Option.or, hk]
    · simp [Option.or]

theorem nodupKeys_upsertFacts :
    ∀ (rs : List FactRecord) {s : FactStore},
      NodupKeys s → NodupKeys (upsertFacts s rs)
  | [], _, h => h
  | r :: rs, _, h =>
    nodupKeys_upsertFacts rs (nodupKeys_upsertFact r h)

theorem keys_upsertFacts_of_mem :
    ∀ (rs : List FactRecord) (s : FactStore),
      (∀ r ∈ rs, factKey r ∈ s.map factKey) →
      (upsertFacts s rs).map factKey = s.map factKey
  | [], s, _ => rfl
  | r :: rs, s, h => by
    show (upsertFacts (upsertFact s r) rs).map factKey = _
    have hk : (upsertFact s r).map factKey = s.map factKey := by
      rw [keys_upsertFact, if_pos (h r (List.mem_cons_self _ _))]
    rw [keys_upsertFacts_of_mem rs (upsertFact s r)
      (fun r2 hr2 => hk ▸ h r2 (List.mem_cons_of_mem _ hr2)), hk]

theorem lastWith_isSome_of_mem {rs : List FactRecord} {r : FactRecord}
    (h : r ∈ rs) : (lastWith (factKey r) rs).isSome := by
  induction rs with
  | nil => simp at h
  | cons x xs ih =>
    simp only [lastWith]
    rcases List.mem_cons.mp h with rfl | h
    · rcases lastWith (factKey r) xs with _ | v <;> simp [Option.or]
    · have hsome := ih h
      rcases hlw : lastWith (factKey r) xs with _ | v
      · rw [hlw] at hsome
        simp at hsome
      · simp [Option.or]

theorem factStore_ext :
    ∀ {s1 s2 : FactStore}, NodupKeys s1 →
      s1.map factKey = s2.map factKey →
      (∀ k, lookupFact k s1 = lookupFact k s2) → s1 = s2
  | [], s2, _, hkeys, _ => by
    have h0 : s2.map factKey = [] := hkeys.symm
    exact (List.map_eq_nil_iff.mp h0).symm
  | x :: t1, [], _, hkeys, _ => by simp at hkeys
  | x :: t1, y :: t2, hnd, hkeys, hlook => by
    simp only [List.map_cons, List.cons.injEq] at hkeys
    obtain ⟨hxy, htail⟩ := hkeys
    have hx : lookupFact (factKey x) (x :: t1) = some x := by
      simp [lookupFact]
    have hy : lookupFact (factKey x) (y :: t2) = some y := by
      simp [lookupFact, if_pos hxy.symm]
    have hxy2 : x = y := by
      have h1 := hlook (factKey x)
      rw [hx, hy] at h1
      exact Option.some_inj.mp h1
    subst hxy2
    have hnd1 : NodupKeys t1 := by
      unfold NodupKeys at hnd ⊢
      exact (List.nodup_cons.mp hnd).2
    have hxnin1 : factKey x ∉ t1.map factKey :=
      (List.nodup_cons.mp hnd).1
    have hxnin2 : factKey x ∉ t2.map factKey := htail ▸ hxnin1
    have htl : ∀ k, lookupFact k t1 = lookupFact k t2 := by
      intro k
      by_cases hk : k = factKey x
      · rw [hk, lookupFact_eq_none hxnin1, lookupFact_eq_none hxnin2]
      · have := hlook k
        simp only [lookupFact,
          if_neg (fun he : factKey x = k => hk he.symm)] at this
        exact this
    rw [factStore_ext hnd1 htail htl]

theorem upsertFacts_idem {s : FactStore} (rs : List FactRecord)
    (h : NodupKeys s) :
    upsertFacts (upsertFacts s rs) rs = upsertFacts s rs := by
  have h1 : NodupKeys (upsertFacts s rs) := nodupKeys_upsertFacts rs h
  apply factStore_ext (nodupKeys_upsertFacts rs h1)
  · apply keys_upsertFacts_of_mem
    intro r hr
    have hsome := lastWith_isSome_of_mem hr
    rcases hlw : lastWith (factKey r) rs with _ | v
    · rw [hlw] at hsome
      simp at hsome
    · apply mem_keys_of_lookupFact (v := v)
      rw [lookupFact_upsertFacts, hlw]
      rfl
  · intro k
    rw [lookupFact_upsertFacts, lookupFact_upsertFacts]
    rcases lastWith k rs with _ | v <;> simp [Option.or]

theorem foldl_upsert_filterMap (f : String × ℚ → Option FactRecord) :
    ∀ (l : List (String × ℚ)) (s : FactStore),
      l.foldl (fun st kp =>
        match f kp with
        | some r => upsertFact st r
        | none => st) s = upsertFacts s (l.filterMap f)
  | [], s => rfl
  | kp :: l, s => by
    simp only [List.foldl_cons, List.filterMap_cons]
    cases hf : f kp with
    | none => exact foldl_upsert_filterMap f l s
    | some r =>
      show _ = upsertFacts s (r :: l.filterMap f)
      exact foldl_upsert_filterMap f l (upsertFact s r)

theorem runEtl_eq_upsertFacts (dim : String → String → String → Option Nat)
    (timeRes : Datetime → Option Nat) (fetched : Option ApiPayload)
    (s : FactStore) :
    runEtl ⟨some dim, some timeRes⟩ fetched s =
      .ok (upsertFacts s (etlRunRecords dim timeRes fetched)) := by
  rcases fetched with _ | data
  · rfl
  · unfold runEtl etlRunRecords
    rcases h : timeRes data.ts with _ | time_id
    · simp only [h]
      rfl
    · simp only [h]
      by_cases ht : time_id = 0
      · rw [if_pos ht, if_pos ht]
        rfl
      · rw [if_neg ht, if_neg ht, foldl_upsert_filterMap]
        rfl

theorem foldl_pickOpt_mem :
    ∀ (xs : List (String × Option ℚ)) (x : String × Option ℚ),
      xs.foldl pickOpt x ∈ x :: xs
  | [], x => by simp
  | y :: ys, x => by
    simp only [List.foldl_cons]
    rcases List.mem_cons.mp (foldl_pickOpt_mem ys (pickOpt x y)) with h | h
    · rw [h]
      unfold pickOpt
      split
      · exact List.mem_cons_of_mem _ (List.mem_cons_self _ _)
      · exact List.mem_cons_self _ _
    · exact List.mem_cons_of_mem _ (List.mem_cons_of_mem _ h)

theorem pickOpt_someScore (b c : String × ℚ) :
    pickOpt (someScore b) (someScore c) = someScore (pickQ b c) := by
  unfold pickOpt pickQ someScore pyGt
  by_cases h : b.2 < c.2 <;> simp [h]

theorem foldl_pickOpt_map :
    ∀ (xs : List (String × ℚ)) (x : String × ℚ),
      (xs.map someScore).foldl pickOpt (someScore x) =
        someScore (xs.foldl pickQ x)
  | [], _ => rfl
  | y :: ys, x => by
    simp only [List.map_cons, List.foldl_cons, pickOpt_someScore]
    exact foldl_pickOpt_map ys (pickQ x y)

theorem foldl_pickQ_spec :
    ∀ (xs : List (String × ℚ)) (x : String × ℚ),
      ∃ pre post,
        x :: xs = pre ++ (xs.foldl pickQ x) :: post ∧
        (∀ p ∈ x :: xs, p.2 ≤ (xs.foldl pickQ x).2) ∧
        (∀ p ∈ pre, p.2 < (xs.foldl pickQ x).2)
  | [], x => ⟨[], [], by simp, by simp, by simp⟩
  | y :: ys, x => by
    simp only [List.foldl_cons]
    obtain ⟨pre, post, hdec, hmax, hpre⟩ := foldl_pickQ_spec ys (pickQ x y)
    by_cases hxy : x.2 < y.2
    · rw [show pickQ x y = y from by simp [pickQ, hxy]] at hdec hmax hpre ⊢
      refine ⟨x :: pre, post, by rw [List.cons_append, ← hdec], ?_, ?_⟩
      · intro p hp
        rcases List.mem_cons.mp hp with rfl | hp
        · exact le_trans (le_of_lt hxy) (hmax y (List.mem_cons_self _ _))
        · exact hmax p hp
      · intro p hp
        rcases List.mem_cons.mp hp with rfl | hp
        · exact lt_of_lt_of_le hxy (hmax y (List.mem_cons_self _ _))
        · exact hpre p hp
    · rw [show pickQ x y = x from by simp [pickQ, hxy]] at hdec hmax hpre ⊢
      have hyx : y.2 ≤ x.2 := le_of_not_lt hxy
      rcases pre with _ | ⟨p0, pre'⟩
      · simp only [List.nil_append] at hdec
        injection hdec with h1 h2
        refine ⟨[], y :: ys, by rw [List.nil_append, ← h1], ?_, by simp⟩
        intro p hp
        rcases List.mem_cons.mp hp with rfl | hp
        · exact hmax p (List.mem_cons_self _ _)
        · rcases List.mem_cons.mp hp with rfl | hp
          · exact le_trans hyx (hmax x (List.mem_cons_self _ _))
          · exact hmax p (List.mem_cons_of_mem _ hp)
      · injection hdec with h1 h2
        simp only [List.append_eq] at h2
        subst h1
        refine ⟨x :: y :: pre', post, ?_, ?_, ?_⟩
        · rw [List.cons_append, List.cons_append, ← h2]
        · intro p hp
          rcases List.mem_cons.mp hp with rfl | hp
          · exact hmax p (List.mem_cons_self _ _)
          · rcases List.mem_cons.mp hp with rfl | hp
            · exact le_trans hyx (hmax x (List.mem_cons_self _ _))
            · exact hmax p (List.mem_cons_of_mem _ hp)
        · intro p hp
          rcases List.mem_cons.mp hp with rfl | hp
          · exact hpre p (List.mem_cons_self _ _)
          · rcases List.mem_cons.mp hp with rfl | hp
            · exact lt_of_le_of_lt hyx (hpre x (List.mem_cons_self _ _))
            · exact hpre p (List.mem_cons_of_mem _ hp)

theorem foldl_nearest_mem (t : Nat) :
    ∀ (xs : List (Nat × ℚ)) (x : Nat × ℚ),
      xs.foldl (fun best cand =>
        if tdist cand.1 t < tdist best.1 t then cand else best) x ∈ x :: xs
  | [], x => by simp
  | y :: ys, x => by
    simp only [List.foldl_cons]
    rcases List.mem_cons.mp (foldl_nearest_mem t ys
      (if tdist y.1 t < tdist x.1 t then y else x)) with h | h
    · rw [h]
      split
      · exact List.mem_cons_of_mem _ (List.mem_cons_self _ _)
      · exact List.mem_cons_self _ _
    · exact List.mem_cons_of_mem _ (List.mem_cons_of_mem _ h)

theorem foldl_nearest_min (t : Nat) :
    ∀ (xs : List (Nat × ℚ)) (x : Nat × ℚ), ∀ p ∈ x :: xs,
      tdist (xs.foldl (fun best cand =>
        if tdist cand.1 t < tdist best.1 t then cand else best) x).1 t ≤
        tdist p.1 t
  | [], x, p, hp => by
    rw [List.mem_singleton.mp hp]
    simp
  | y :: ys, x, p, hp => by
    simp only [List.foldl_cons]
    rcases List.mem_cons.mp hp with rfl | hp
    · refine le_trans (foldl_nearest_min t ys _ _ (List.mem_cons_self _ _)) ?_
      split
      · rename_i hyx
        exact le_of_lt hyx
      · exact le_refl _
    · rcases List.mem_cons.mp hp with rfl | hp
      · refine le_trans
          (foldl_nearest_min t ys _ _ (List.mem_cons_self _ _)) ?_
        split
        · exact le_refl _
        · rename_i hyx
          exact le_of_not_lt hyx
      · exact foldl_nearest_min t ys _ p (List.mem_cons_of_mem _ hp)

theorem nearestWithin_spec {tol : Nat} {ref : List (Nat × ℚ)} {t : Nat}
    {b : Nat × ℚ} (h : nearestWithin tol ref t = some b) :
    b ∈ ref ∧ tdist b.1 t ≤ tol ∧ ∀ p ∈ ref, tdist b.1 t ≤ tdist p.1 t := by
  rcases ref with _ | ⟨x, xs⟩
  · exact absurd h (by simp [nearestWithin])
  · rw [show nearestWithin tol (x :: xs) t
        = (if tdist (xs.foldl (fun best cand =>
            if tdist cand.1 t < tdist best.1 t then cand else best) x).1 t
              ≤ tol
          then some (xs.foldl (fun best cand =>
            if tdist cand.1 t < tdist best.1 t then cand else best) x)
          else none) from rfl] at h
    split at h
    · rename_i htol
      obtain rfl := Option.some_inj.mp h
      exact ⟨foldl_nearest_mem t xs x, htol, foldl_nearest_min t xs x⟩
    · exact absurd h (by simp)

theorem nearestWithin_eq_none {tol : Nat} {ref : List (Nat × ℚ)} {t : Nat}
    (h : ∀ p ∈ ref, tol < tdist p.1 t) : nearestWithin tol ref t = none := by
  rcases ref with _ | ⟨x, xs⟩
  · rfl
  · show (if tdist (xs.foldl (fun best cand =>
        if tdist cand.1 t < tdist best.1 t then cand else best) x).1 t ≤ tol
      then some (xs.foldl (fun best cand =>
        if tdist cand.1 t < tdist best.1 t then cand else best) x)
      else none) = none
    rw [if_neg]
    push_neg
    exact h _ (foldl_nearest_mem t xs x)

theorem mem_premiumSeries {futures reference : List (Nat × ℚ)}
    {tp : Nat × ℚ} :
    tp ∈ premiumSeries futures reference ↔
      ∃ a ∈ futures, ∃ b, nearestWithin 60 reference a.1 = some b ∧
        tp = (a.1, (a.2 - b.2) / b.2 * 100) := by
  unfold premiumSeries
  rw [List.mem_filterMap]
  constructor
  · rintro ⟨a, ha, hf⟩
    rcases hn : nearestWithin 60 reference a.1 with _ | b
    · rw [hn] at hf
      exact absurd hf (by simp)
    · rw [hn] at hf
      simp only [Option.some_inj] at hf
      exact ⟨a, ha, b, hn, hf.symm⟩
  · rintro ⟨a, ha, b, hn, htp⟩
    refine ⟨a, ha, ?_⟩
    rw [hn, htp]

theorem mem_volatilityScores {df : List Row} {m : String} {v : Option ℚ} :
    (m, v) ∈ volatilityScores df ↔
      m ∈ uniqueFirst (df.map Row.metal) ∧
      3 ≤ (pairSubset df m "Spot").length ∧
      v = sampleVarQ (pctReturns ((dailyLast ((pairSubset df m "Spot").map
        (fun r => (dayOf r.ts, r.price)))).map Prod.snd)) := by
  unfold volatilityScores
  rw [List.mem_filterMap]
  constructor
  · rintro ⟨m', hm', hf⟩
    split at hf
    · exact absurd hf (by simp)
    · rename_i hlen
      obtain ⟨rfl, rfl⟩ := Prod.mk.injEq .. ▸ Option.some_inj.mp hf
      exact ⟨hm', by omega, rfl⟩
  · rintro ⟨hm, hlen, hv⟩
    refine ⟨m, hm, ?_⟩
    rw [if_neg (by omega), hv]

/-! ## C1 — `run_etl` raises `NameError` before writing any fact -/

/-- C1: `run_etl` invokes `get_or_create_dimension` (line 44) and
`get_or_create_time_id` (line 61), but neither name is bound in the ETL
module — `get_or_create_time_id` is bound only in `seed_data.py`, and
`get_or_create_dimension` nowhere — so every call raises an unhandled
`NameError` before any fact row is written, and the scheduler's job
wrapper catches and logs it, leaving the store untouched on every
scheduled cycle. -/
theorem C1_run_etl_raises_name_error (fetched : Option ApiPayload)
    (s : FactStore) :
    "get_or_create_dimension" ∉ etlPipelineGlobalNames ∧
    "get_or_create_time_id" ∉ etlPipelineGlobalNames ∧
    "get_or_create_time_id" ∈ seedDataGlobalNames ∧
    runEtl etlActualGlobals fetched s =
      .error "NameError: name get_or_create_dimension is not defined" ∧
    schedulerJob etlActualGlobals fetched s =
      (.loggedError "NameError: name get_or_create_dimension is not defined",
        s) :=
  ⟨by decide, by decide, by decide, rfl, rfl⟩

/-! ## C2 — classification heuristic -/

/-- C2 as stated fails on the code: the claimed heuristic classifies
`"gold_mcx"` as metal `"Gold"`, market `"MCX"`, but the silver-only loop
of `run_etl` skips the key entirely (no `silver` substring), as it also
skips `"silver_lbma_am"` and `"platinum"`. -/
theorem C2_counterexample :
    classifyKey "gold_mcx" = none ∧
    specClassifyKey "gold_mcx" = ("Gold", "MCX") ∧
    classifyKey "gold_mcx" ≠ some (specClassifyKey "gold_mcx") ∧
    classifyKey "silver_lbma_am" = none ∧
    classifyKey "platinum" = none := by decide

/-- C2 amended: ingestion classifies each key of the payload by the
silver-only heuristic — a key whose lowercased form does not contain
`silver` is skipped; otherwise a key containing `_mcx` maps to metal
`"Silver"`, market `"MCX"` (the metal name is hard-coded, not derived
from the key); otherwise a key containing `_lbma`, `_am` or `_pm` is
skipped; otherwise the key maps to metal `"Silver"`, market `"Spot"`. -/
theorem C2_amended_silver_only_classification (key : String) :
    (strHas (lowerStr key) "silver" = false → classifyKey key = none) ∧
    (strHas (lowerStr key) "silver" = true → strHas key "_mcx" = true →
      classifyKey key = some ("Silver", "MCX")) ∧
    (strHas (lowerStr key) "silver" = true → strHas key "_mcx" = false →
      (strHas key "_lbma" || strHas key "_am" || strHas key "_pm") = true →
      classifyKey key = none) ∧
    (strHas (lowerStr key) "silver" = true → strHas key "_mcx" = false →
      strHas key "_lbma" = false → strHas key "_am" = false →
      strHas key "_pm" = false →
      classifyKey key = some ("Silver", "Spot")) := by
  refine ⟨fun h1 => ?_, fun h1 h2 => ?_, fun h1 h2 h3 => ?_,
    fun h1 h2 h3 h4 h5 => ?_⟩ <;>
    simp [classifyKey, h1, *]

/-- Witness for `C2_amended_silver_only_classification` at concrete
keys. -/
theorem C2_amended_silver_only_classification_witness :
    classifyKey "silver_mcx" = some ("Silver", "MCX") :=
  (C2_amended_silver_only_classification "silver_mcx").2.1 (by decide)
    (by decide)

/-! ## C3 — idempotent four-column-key fact upserts -/

/-- C3: with working helper bindings, an ETL ingestion upserts its fact
records keyed on `(metal_id, market_id, time_id, currency)`: the
resulting store keeps at most one row per key (`NodupKeys`), each
ingested key holds the latest ingested value for that key (later records
of the run win) while untouched keys keep their old row, and ingesting
the same input JSON a second time returns the very same store — no
duplicate row is ever inserted for a key. -/
theorem C3_idempotent_upsert (dim : String → String → String → Option Nat)
    (timeRes : Datetime → Option Nat) (fetched : Option ApiPayload)
    (s : FactStore) (hs : NodupKeys s) :
    ∃ s1, runEtl ⟨some dim, some timeRes⟩ fetched s = .ok s1 ∧
      runEtl ⟨some dim, some timeRes⟩ fetched s1 = .ok s1 ∧
      NodupKeys s1 ∧
      ∀ k, lookupFact k s1 =
        (lastWith k (etlRunRecords dim timeRes fetched)).or
          (lookupFact k s) := by
  refine ⟨upsertFacts s (etlRunRecords dim timeRes fetched),
    runEtl_eq_upsertFacts dim timeRes fetched s, ?_,
    nodupKeys_upsertFacts _ hs, fun k => lookupFact_upsertFacts k _ s⟩
  rw [runEtl_eq_upsertFacts dim timeRes fetched
    (upsertFacts s (etlRunRecords dim timeRes fetched)),
    upsertFacts_idem _ hs]

/-- Witness for `C3_idempotent_upsert`: a concrete resolver, a
one-silver-quote payload and the empty store. -/
theorem C3_idempotent_upsert_witness :
    ∃ s1,
      runEtl
        ⟨some (fun _ _ v => if v = "Silver" then some 1
            else if v = "Spot" then some 2 else some 3),
          some (fun _ => some 2024010110)⟩
        (some ⟨[("silver", 100)], ⟨2024, 1, 1, 10, 0, 0⟩⟩)
        ([] : List FactRecord) = .ok s1 ∧
      runEtl
        ⟨some (fun _ _ v => if v = "Silver" then some 1
            else if v = "Spot" then some 2 else some 3),
          some (fun _ => some 2024010110)⟩
        (some ⟨[("silver", 100)], ⟨2024, 1, 1, 10, 0, 0⟩⟩) s1 = .ok s1 ∧
      NodupKeys s1 ∧
      ∀ k, lookupFact k s1 =
        (lastWith k (etlRunRecords
          (fun _ _ v => if v = "Silver" then some 1
            else if v = "Spot" then some 2 else some 3)
          (fun _ => some 2024010110)
          (some ⟨[("silver", 100)], ⟨2024, 1, 1, 10, 0, 0⟩⟩))).or
          (lookupFact k ([] : List FactRecord)) :=
  C3_idempotent_upsert
    (fun _ _ v => if v = "Silver" then some 1
      else if v = "Spot" then some 2 else some 3)
    (fun _ => some 2024010110)
    (some ⟨[("silver", 100)], ⟨2024, 1, 1, 10, 0, 0⟩⟩)
    ([] : List FactRecord) (by simp [NodupKeys])

/-! ## C4 — time bucketer -/

/-- C4 as stated fails on the code: two instants in the same hour yield
the same `timeId`, but `get_or_create_time_id` stores the full instant in
the row's `timestamp` attribute, so the written `dim_time` row contents
differ between 10:00:00 and 10:30:00. -/
theorem C4_counterexample :
    sameHour ⟨2024, 1, 1, 10, 0, 0⟩ ⟨2024, 1, 1, 10, 30, 0⟩ ∧
    timeIdOf ⟨2024, 1, 1, 10, 0, 0⟩ = timeIdOf ⟨2024, 1, 1, 10, 30, 0⟩ ∧
    timeBucketRecordOf ⟨2024, 1, 1, 10, 0, 0⟩ ≠
      timeBucketRecordOf ⟨2024, 1, 1, 10, 30, 0⟩ := by decide

/-- C4 amended: the returned `timeId` equals the hour-truncated instant
formatted as `YYYYMMDDHH` and parsed as an integer; any two instants in
the same hour get the same `timeId`, and the rows they write agree on the
id and every calendar field (`date`, `day`, `month`, `year`, `hour`),
which all match the truncating hour — only the full-instant `timestamp`
attribute may differ within the hour. -/
theorem C4_amended_time_bucketer (t1 t2 : Datetime) (h : sameHour t1 t2) :
    timeIdOf t1 = timeIdOf (truncHour t1) ∧
    timeIdOf t1 = timeIdOf t2 ∧
    (timeBucketRecordOf t1).id = (timeBucketRecordOf t2).id ∧
    (timeBucketRecordOf t1).date = (timeBucketRecordOf t2).date ∧
    (timeBucketRecordOf t1).day = (timeBucketRecordOf t2).day ∧
    (timeBucketRecordOf t1).month = (timeBucketRecordOf t2).month ∧
    (timeBucketRecordOf t1).year = (timeBucketRecordOf t2).year ∧
    (timeBucketRecordOf t1).hour = (timeBucketRecordOf t2).hour ∧
    (timeBucketRecordOf t1).id = timeIdOf (truncHour t1) ∧
    (timeBucketRecordOf t1).year = (truncHour t1).year ∧
    (timeBucketRecordOf t1).month = (truncHour t1).month ∧
    (timeBucketRecordOf t1).day = (truncHour t1).day ∧
    (timeBucketRecordOf t1).hour = (truncHour t1).hour := by
  obtain ⟨hy, hm, hd, hh⟩ := h
  simp [timeIdOf, strftimeYmdH, timeBucketRecordOf, isoDate, truncHour,
    hy, hm, hd, hh]

/-- Witness for `C4_amended_time_bucketer` at two concrete instants half
an hour apart. -/
theorem C4_amended_time_bucketer_witness :
    timeIdOf ⟨2024, 1, 1, 10, 0, 0⟩ = timeIdOf ⟨2024, 1, 1, 10, 30, 0⟩ :=
  (C4_amended_time_bucketer ⟨2024, 1, 1, 10, 0, 0⟩ ⟨2024, 1, 1, 10, 30, 0⟩
    (by decide)).2.1

/-! ## C5 — daily percentage change -/

/-- C5: `calculate_daily_change` resamples the (metal, market) slice to
one value per calendar day taking the last observation of each day, and
returns `(today / yesterday − 1) × 100` for the most recent available
day; with a nonempty slice but fewer than two daily points it returns
`0`, and with an empty slice it returns the defined no-data result
`none`; the series 100, 100, 110 observed on days 1, 1, 2 yields
`+10.0`. -/
theorem C5_daily_change (df : List Row) (metal market : String) :
    (pairSubset df metal market = [] →
      calculate_daily_change df metal market = none) ∧
    (pairSubset df metal market ≠ [] →
      (dailyLast ((pairSubset df metal market).map
        (fun r => (dayOf r.ts, r.price)))).length < 2 →
      calculate_daily_change df metal market = some 0) ∧
    (∀ rest q p,
      (dailyLast ((pairSubset df metal market).map
        (fun r => (dayOf r.ts, r.price)))).map Prod.snd = rest ++ [q, p] →
      calculate_daily_change df metal market = some ((p / q - 1) * 100)) ∧
    calculate_daily_change
      [⟨100, "Silver", "Spot", 24⟩, ⟨100, "Silver", "Spot", 30⟩,
        ⟨110, "Silver", "Spot", 48⟩] "Silver" "Spot" = some 10 := by
  refine ⟨?_, ?_, ?_, ?_⟩
  · intro h
    simp [calculate_daily_change, h]
  · intro hne hlen
    have hempty : (pairSubset df metal market).isEmpty = false := by
      simpa [List.isEmpty_iff] using hne
    have hlen2 : (pctChanges ((dailyLast ((pairSubset df metal market).map
        (fun r => (dayOf r.ts, r.price)))).map Prod.snd)) = [] := by
      have h1 := pctReturns_length ((dailyLast ((pairSubset df metal market).map
        (fun r => (dayOf r.ts, r.price)))).map Prod.snd)
      rw [List.length_map] at h1
      rw [pctChanges, List.map_eq_nil_iff, ← List.length_eq_zero]
      omega
    simp [calculate_daily_change, hempty, hlen2]
  · intro rest q p hd
    have hne : pairSubset df metal market ≠ [] := by
      intro h0
      rw [h0] at hd
      simp [dailyLast] at hd
    have hempty : (pairSubset df metal market).isEmpty = false := by
      simpa [List.isEmpty_iff] using hne
    simp only [calculate_daily_change, hempty, Bool.false_eq_true, if_false,
      hd, pctChanges_getLast q p rest]
    rfl
  · have h2 := pctChanges_getLast (100 : ℚ) 110 []
    simp only [List.nil_append] at h2
    simp only [calculate_daily_change, pairSubset]
    norm_num [dailyLast, dayOf, List.filter]
    rw [h2]
    norm_num

/-- Witness for `C5_daily_change`: the three-observation example,
discharged through the general most-recent-day clause. -/
theorem C5_daily_change_witness :
    calculate_daily_change
      [⟨100, "Silver", "Spot", 24⟩, ⟨100, "Silver", "Spot", 30⟩,
        ⟨110, "Silver", "Spot", 48⟩] "Silver" "Spot"
      = some ((110 / 100 - 1) * 100) := by
  refine (C5_daily_change
    [⟨100, "Silver", "Spot", 24⟩, ⟨100, "Silver", "Spot", 30⟩,
      ⟨110, "Silver", "Spot", 48⟩] "Silver" "Spot").2.2.1 [] 100 110 ?_
  simp [pairSubset, dailyLast, dayOf, List.filter]

/-! ## C6 — most-volatile-instrument ranking -/

/-- C6 as stated fails on the code: with three same-day Gold observations
(one daily point) and three Silver observations on distinct days,
`identify_most_volatile` keeps Gold in the ranking — its guard counts raw
Spot rows, not daily points — scores it `NaN`, and Python `max` then
returns Gold, while the claimed daily-point rule would exclude Gold and
return Silver. -/
theorem C6_counterexample :
    (dailyLast ((pairSubset
      [⟨100, "Gold", "Spot", 0⟩, ⟨110, "Gold", "Spot", 1⟩,
       ⟨105, "Gold", "Spot", 2⟩, ⟨100, "Silver", "Spot", 0⟩,
       ⟨110, "Silver", "Spot", 24⟩, ⟨132, "Silver", "Spot", 48⟩]
      "Gold" "Spot").map (fun r => (dayOf r.ts, r.price)))).length < 3 ∧
    identify_most_volatile
      [⟨100, "Gold", "Spot", 0⟩, ⟨110, "Gold", "Spot", 1⟩,
       ⟨105, "Gold", "Spot", 2⟩, ⟨100, "Silver", "Spot", 0⟩,
       ⟨110, "Silver", "Spot", 24⟩, ⟨132, "Silver", "Spot", 48⟩]
      = some "Gold" ∧
    specMostVolatile
      [⟨100, "Gold", "Spot", 0⟩, ⟨110, "Gold", "Spot", 1⟩,
       ⟨105, "Gold", "Spot", 2⟩, ⟨100, "Silver", "Spot", 0⟩,
       ⟨110, "Silver", "Spot", 24⟩, ⟨132, "Silver", "Spot", 48⟩]
      = some "Silver" := by
  refine ⟨by simp [pairSubset, dailyLast, dayOf], ?_, ?_⟩
  · simp [identify_most_volatile, volatilityScores, uniqueFirst,
      uniqueFirstAux, pairSubset, dailyLast, dayOf, sampleVarQ, pctReturns,
      pyMaxByScore, pickOpt, pyGt, List.filterMap_cons]
  · simp [specMostVolatile, uniqueFirst, uniqueFirstAux, pairSubset,
      dailyLast, dayOf, sampleVarQ, pctReturns, pyMaxByScore, pickOpt,
      pyGt, List.filterMap_cons]

/-- C6 amended: per first-seen metal restricted to the Spot market,
metals with fewer than 3 raw observations (not daily points) are excluded
from the ranking; the rest are scored by the deviation of day-over-day
returns of the daily-last resample (undefined when fewer than two returns
exist, and compared here through its square, the sample variance, which
ranks identically); the returned metal always has at least 3 Spot rows,
and whenever every ranked score is defined the returned metal attains the
highest score with ties broken by first-encountered order (no earlier
ranked metal reaches its score). -/
theorem C6_amended_most_volatile (df : List Row) :
    (∀ m, identify_most_volatile df = some m →
      m ∈ df.map Row.metal ∧ 3 ≤ (pairSubset df m "Spot").length) ∧
    (∀ (l : List (String × ℚ)) (m : String),
      volatilityScores df = l.map someScore →
      identify_most_volatile df = some m →
      ∃ v pre post,
        l = pre ++ (m, v) :: post ∧
        (∀ p ∈ l, p.2 ≤ v) ∧
        (∀ p ∈ pre, p.2 < v)) := by
  constructor
  · intro m hm
    unfold identify_most_volatile at hm
    rcases hsc : volatilityScores df with _ | ⟨x, xs⟩
    · rw [hsc] at hm
      exact absurd hm (by simp [pyMaxByScore])
    · rw [hsc] at hm
      simp only [pyMaxByScore, Option.some_inj] at hm
      have hmem : ((xs.foldl pickOpt x).1, (xs.foldl pickOpt x).2)
          ∈ volatilityScores df := by
        rw [Prod.mk.eta, hsc]
        exact foldl_pickOpt_mem xs x
      rw [hm] at hmem
      obtain ⟨h1, h2, -⟩ := mem_volatilityScores.mp hmem
      exact ⟨(mem_uniqueFirst _ _).mp h1, h2⟩
  · intro l m hl hm
    unfold identify_most_volatile at hm
    rcases l with _ | ⟨x, xs⟩
    · rw [hl] at hm
      exact absurd hm (by simp [pyMaxByScore])
    · rw [hl] at hm
      simp only [List.map_cons, pyMaxByScore, Option.some_inj] at hm
      rw [foldl_pickOpt_map] at hm
      simp only [someScore] at hm
      obtain ⟨pre, post, hdec, hmax, hpre⟩ := foldl_pickQ_spec xs x
      have hfold : (m, (xs.foldl pickQ x).2) = xs.foldl pickQ x := by
        rw [← hm]
      refine ⟨(xs.foldl pickQ x).2, pre, post, ?_, ?_, ?_⟩
      · rw [hfold]
        exact hdec
      · exact hmax
      · exact hpre

/-- Witness for `C6_amended_most_volatile`: three distinct-day Gold
observations make Gold the ranked result, which indeed has 3 Spot rows. -/
theorem C6_amended_most_volatile_witness :
    "Gold" ∈ ([⟨100, "Gold", "Spot", 0⟩, ⟨110, "Gold", "Spot", 24⟩,
      ⟨105, "Gold", "Spot", 48⟩] : List Row).map Row.metal ∧
    3 ≤ (pairSubset [⟨100, "Gold", "Spot", 0⟩, ⟨110, "Gold", "Spot", 24⟩,
      ⟨105, "Gold", "Spot", 48⟩] "Gold" "Spot").length :=
  (C6_amended_most_volatile _).1 "Gold" (by
    simp [identify_most_volatile, volatilityScores, uniqueFirst,
      uniqueFirstAux, pairSubset, dailyLast, dayOf, sampleVarQ, pctReturns,
      pyMaxByScore, pickOpt, pyGt, List.filterMap_cons])

/-! ## C7 — volatility spike detection -/

/-- C7: with threshold `t`, an alert for a (metal, market) pair is
emitted exactly when the pair has at least 2 observations and the
magnitude of the most recent point-to-point percentage change exceeds
`t`; every emitted alert carries that most recent change and the date of
the last observation; the series 100, 104 with threshold 3 produces an
alert and 100, 101 does not. -/
theorem C7_volatility_spikes (df : List Row) (t : ℚ) (metal market : String) :
    ((∃ a ∈ detect_volatility df t, a.metal = metal ∧ a.market = market) ↔
      2 ≤ (pairSubset df metal market).length ∧
      ∃ c, (pctChanges ((pairSubset df metal market).map Row.price)).getLast?
          = some c ∧ t < |c|) ∧
    (∀ a ∈ detect_volatility df t,
      (pctChanges ((pairSubset df a.metal a.market).map Row.price)).getLast?
          = some a.change ∧
      t < |a.change| ∧
      ∃ lr, (pairSubset df a.metal a.market).getLast? = some lr ∧
        a.date = lr.ts) ∧
    detect_volatility
      [⟨100, "Silver", "Spot", 0⟩, ⟨104, "Silver", "Spot", 1⟩] 3
      = [⟨"Silver", "Spot", 4, 1⟩] ∧
    detect_volatility
      [⟨100, "Silver", "Spot", 0⟩, ⟨101, "Silver", "Spot", 1⟩] 3 = [] := by
  refine ⟨⟨?_, ?_⟩, ?_, ?_, ?_⟩
  · rintro ⟨a, ha, hm, hk⟩
    obtain ⟨m, mk, -, -, hs⟩ := mem_detect_volatility.mp ha
    obtain ⟨hlen, c, lr, hc, hlr, habs, rfl⟩ := spikeFor_eq_some.mp hs
    simp only [Alert.metal] at hm
    simp only [Alert.market] at hk
    subst hm
    subst hk
    exact ⟨hlen, c, hc, habs⟩
  · rintro ⟨hlen, c, hc, habs⟩
    have hne : pairSubset df metal market ≠ [] := by
      intro h0
      rw [h0] at hlen
      simp at hlen
    obtain ⟨r, hr⟩ := List.exists_mem_of_ne_nil _ hne
    obtain ⟨hrdf, hrm, hrk⟩ := mem_pairSubset.mp hr
    rcases hlr : (pairSubset df metal market).getLast? with _ | lr
    · rw [List.getLast?_eq_none_iff] at hlr
      exact absurd hlr hne
    · refine ⟨⟨metal, market, c, lr.ts⟩, ?_, rfl, rfl⟩
      rw [mem_detect_volatility]
      exact ⟨metal, market, List.mem_map.mpr ⟨r, hrdf, hrm⟩,
        List.mem_map.mpr ⟨r, hrdf, hrk⟩,
        spikeFor_eq_some.mpr ⟨hlen, c, lr, hc, hlr, habs, rfl⟩⟩
  · intro a ha
    obtain ⟨m, mk, -, -, hs⟩ := mem_detect_volatility.mp ha
    obtain ⟨hlen, c, lr, hc, hlr, habs, rfl⟩ := spikeFor_eq_some.mp hs
    exact ⟨hc, habs, lr, hlr, rfl⟩
  · have e1 : pctChanges [(100 : ℚ), 104] = [4] := by
      norm_num [pctChanges, pctReturns]
    have h3 : ((3 : ℚ)) < |(4 : ℚ)| := by norm_num
    simp [detect_volatility, uniqueFirst, uniqueFirstAux, spikeFor,
      pairSubset, e1, h3, List.filterMap_cons]
    norm_num
  · have e2 : pctChanges [(100 : ℚ), 101] = [1] := by
      norm_num [pctChanges, pctReturns]
    have h4 : ¬ ((3 : ℚ)) < |(1 : ℚ)| := by norm_num
    simp [detect_volatility, uniqueFirst, uniqueFirstAux, spikeFor,
      pairSubset, e2, h4, List.filterMap_cons]

/-- Witness for `C7_volatility_spikes`: the 100 → 104 series with
threshold 3 emits a Silver/Spot alert, via the iff clause. -/
theorem C7_volatility_spikes_witness :
    ∃ a ∈ detect_volatility
      [⟨100, "Silver", "Spot", 0⟩, ⟨104, "Silver", "Spot", 1⟩] 3,
      a.metal = "Silver" ∧ a.market = "Spot" := by
  refine ((C7_volatility_spikes
    [⟨100, "Silver", "Spot", 0⟩, ⟨104, "Silver", "Spot", 1⟩]
    3 "Silver" "Spot").1).mpr ⟨?_, 4, ?_, ?_⟩
  · simp [pairSubset]
  · norm_num [pairSubset, pctChanges, pctReturns, List.filter]
  · norm_num

/-! ## C8 — premium/spread series (spec-modelled) -/

/-- C8 (spec-modelled: the operation has no implementation under `src/`):
the premium series pairs each futures point with the nearest reference
point within a 60-minute tolerance and emits
`(priceA − priceB) / priceB × 100` at the futures timestamp; a futures
point farther than 60 minutes from every reference point contributes
nothing; reference 100 at minute 0 with futures 105 at minute 30 yields
premium `+5` aligned at minute 30, while a futures point 100 minutes away
from the only reference point is dropped. -/
theorem C8_premium_series (futures reference : List (Nat × ℚ)) :
    (∀ a ∈ futures, (∀ b ∈ reference, 60 < tdist b.1 a.1) →
      ∀ p, (a.1, p) ∉ premiumSeries futures reference) ∧
    (∀ tp ∈ premiumSeries futures reference,
      ∃ a ∈ futures, ∃ b ∈ reference,
        tp = (a.1, (a.2 - b.2) / b.2 * 100) ∧ tdist b.1 a.1 ≤ 60 ∧
        ∀ b2 ∈ reference, tdist b.1 a.1 ≤ tdist b2.1 a.1) ∧
    premiumSeries [(30, 105)] [(0, 100)] = [(30, 5)] ∧
    premiumSeries [(100, 105)] [(0, 100)] = [] := by
  refine ⟨?_, ?_, ?_, ?_⟩
  · rintro a ha hfar p hp
    obtain ⟨a2, -, b, hn, htp⟩ := mem_premiumSeries.mp hp
    rw [Prod.mk.injEq] at htp
    rw [← htp.1] at hn
    obtain ⟨hbmem, hbtol, -⟩ := nearestWithin_spec hn
    exact absurd hbtol (not_le.mpr (hfar b hbmem))
  · rintro tp htp
    obtain ⟨a, ha, b, hn, htp2⟩ := mem_premiumSeries.mp htp
    obtain ⟨hbmem, hbtol, hmin⟩ := nearestWithin_spec hn
    exact ⟨a, ha, b, hbmem, htp2, hbtol, hmin⟩
  · show [(30, (105 - 100) / 100 * 100)] = [((30 : Nat), (5 : ℚ))]
    norm_num
  · rfl

/-- Witness for `C8_premium_series`: the distant futures point is never
emitted. -/
theorem C8_premium_series_witness :
    ∀ p, ((100 : Nat), p) ∉ premiumSeries [(100, 105)] [(0, 100)] :=
  (C8_premium_series [(100, 105)] [(0, 100)]).1 (100, 105)
    (List.mem_singleton.mpr rfl)
    (fun b hb => by
      rw [List.mem_singleton.mp hb]
      norm_num [tdist])

/-! ## C9 — seeding issues fact upserts in batches of 100 -/

/-- Behaviour of a failure-free seeding loop with uniform per-step group
size: every issued request stays at 100 records or fewer, the pending
remainder stays under 100, and requests plus remainder carry exactly the
generated records in order. -/
theorem seedLoop_spec (gsize : Nat) (hg1 : gsize = 1 ∨ gsize = 2) :
    ∀ (groups : List (List FactRecord)) (st : SeedState),
      (∀ g ∈ groups, g.length = 0 ∨ g.length = gsize) →
      st.records.length < 100 → gsize ∣ st.records.length →
      (∀ r ∈ st.requests, r.length ≤ 100) →
      (∀ r ∈ (seedLoop (fun _ => false) groups st).requests,
        r.length ≤ 100) ∧
      (seedLoop (fun _ => false) groups st).records.length < 100 ∧
      (seedLoop (fun _ => false) groups st).requests.flatten ++
          (seedLoop (fun _ => false) groups st).records
        = st.requests.flatten ++ st.records ++ groups.flatten
  | [], st, _, hlt, _, hreq => by
    refine ⟨hreq, hlt, ?_⟩
    simp [seedLoop]
  | g :: groups, st, hg, hlt, hdvd, hreq => by
    have hglen := hg g (List.mem_cons_self _ _)
    simp only [seedLoop]
    by_cases hrecs : 100 ≤ (st.records ++ g).length
    · rw [if_pos hrecs]
      simp only [Bool.false_eq_true, if_false]
      have hlen100 : (st.records ++ g).length = 100 := by
        rw [List.length_append] at hrecs ⊢
        rcases hg1 with rfl | rfl <;> rcases hglen with h | h <;> omega
      obtain ⟨h1, h2, h3⟩ := seedLoop_spec gsize hg1 groups
        ⟨[], st.requests ++ [st.records ++ g]⟩
        (fun g2 hg2 => hg g2 (List.mem_cons_of_mem _ hg2))
        (by simp) (by simp)
        (by
          intro r hr
          simp only [List.mem_append, List.mem_singleton] at hr
          rcases hr with hr | rfl
          · exact hreq r hr
          · omega)
      refine ⟨h1, h2, ?_⟩
      rw [h3]
      simp [List.flatten_append, List.flatten_cons, List.append_assoc]
    · rw [if_neg hrecs]
      push_neg at hrecs
      obtain ⟨h1, h2, h3⟩ := seedLoop_spec gsize hg1 groups
        ⟨st.records ++ g, st.requests⟩
        (fun g2 hg2 => hg g2 (List.mem_cons_of_mem _ hg2))
        hrecs
        (by
          rw [List.length_append]
          rcases hglen with h | h
          · rw [h]
            simpa using hdvd
          · rw [h]
            exact Nat.dvd_add hdvd dvd_rfl)
        hreq
      refine ⟨h1, h2, ?_⟩
      rw [h3]
      simp [List.flatten_cons, List.append_assoc]

/-- C9 as stated fails once a batch upsert is rejected: with 51 timesteps
of two records each and the store failing the first request, the
except-branch keeps the unsent 100 records, and the second request issued
by the loop carries 102 records. -/
theorem C9_counterexample :
    (seedRequests (fun n => n == 0)
      (List.replicate 51 [⟨1, 2, 100, 2300, "INR", "toz"⟩,
        ⟨1, 3, 100, 2350, "INR", "toz"⟩])).map List.length
      = [100, 102] := by
  rfl

/-- C9 amended: in a run where no batch upsert fails, every upsert
request issued by the seeding loop carries at most 100 records and the
requests together carry exactly the generated records (the remainder is
flushed at the end); after a rejected batch, however, the retained
records merge into the next request, which can exceed 100. -/
theorem C9_amended_batching (groups : List (List FactRecord)) (gsize : Nat)
    (hg1 : gsize = 1 ∨ gsize = 2)
    (hg : ∀ g ∈ groups, g.length = 0 ∨ g.length = gsize) :
    (∀ req ∈ seedRequests (fun _ => false) groups, req.length ≤ 100) ∧
    (seedRequests (fun _ => false) groups).flatten = groups.flatten := by
  obtain ⟨hreq, hlt, hflat⟩ := seedLoop_spec gsize hg1 groups ⟨[], []⟩ hg
    (by simp) (by simp) (by simp)
  simp only [List.flatten_nil, List.nil_append] at hflat
  unfold seedRequests
  by_cases hemp : (seedLoop (fun _ => false) groups ⟨[], []⟩).records.isEmpty
  · rw [if_pos hemp]
    refine ⟨hreq, ?_⟩
    rw [List.isEmpty_iff] at hemp
    rw [hemp, List.append_nil] at hflat
    exact hflat
  · rw [if_neg hemp]
    constructor
    · intro req hr
      rcases List.mem_append.mp hr with hr | hr
      · exact hreq req hr
      · rw [List.mem_singleton.mp hr]
        omega
    · rw [List.flatten_append, List.flatten_cons, List.flatten_nil,
        List.append_nil]
      exact hflat

/-- Witness for `C9_amended_batching`: 51 failure-free two-record steps
produce requests of at most 100 records carrying all 102 records. -/
theorem C9_amended_batching_witness :
    (∀ req ∈ seedRequests (fun _ => false)
      (List.replicate 51 [⟨1, 2, 100, 2300, "INR", "toz"⟩,
        ⟨1, 3, 100, 2350, "INR", "toz"⟩]), req.length ≤ 100) ∧
    (seedRequests (fun _ => false)
      (List.replicate 51 [⟨1, 2, 100, 2300, "INR", "toz"⟩,
        ⟨1, 3, 100, 2350, "INR", "toz"⟩])).flatten
      = (List.replicate 51 [⟨1, 2, 100, 2300, "INR", "toz"⟩,
        ⟨1, 3, 100, 2350, "INR", "toz"⟩]).flatten :=
  C9_amended_batching _ 2 (Or.inr rfl) (fun g hg => by
    obtain ⟨-, rfl⟩ := List.mem_replicate.mp hg
    exact Or.inr rfl)

/-! ## C10 — missing startup configuration is fatal before any work -/

/-- C10: if any environment-supplied configuration value (API credential,
store URL, store credential) is absent at startup, the affected process
logs and exits immediately, performing no API call, store read, or store
write. -/
theorem C10_missing_config_exits (env : String → Option String) :
    ((env "METALS_DEV_API_KEY" = none ∨ env "SUPABASE_URL" = none ∨
        env "SUPABASE_KEY" = none) →
      etlStartup env = [Effect.logError, Effect.exitProcess] ∧
      Effect.apiCall ∉ etlStartup env ∧
      Effect.storeRead ∉ etlStartup env ∧
      Effect.storeWrite ∉ etlStartup env) ∧
    ((env "SUPABASE_URL" = none ∨ env "SUPABASE_KEY" = none) →
      analyticsStartup env = [Effect.logError, Effect.exitProcess] ∧
      Effect.apiCall ∉ analyticsStartup env ∧
      Effect.storeRead ∉ analyticsStartup env ∧
      Effect.storeWrite ∉ analyticsStartup env) := by
  constructor
  · intro h
    have hall : [env "METALS_DEV_API_KEY", env "SUPABASE_URL",
        env "SUPABASE_KEY"].all truthyEnv = false := by
      rw [List.all_eq_false]
      rcases h with h | h | h
      · exact ⟨env "METALS_DEV_API_KEY", by simp, by simp [h, truthyEnv]⟩
      · exact ⟨env "SUPABASE_URL", by simp, by simp [h, truthyEnv]⟩
      · exact ⟨env "SUPABASE_KEY", by simp, by simp [h, truthyEnv]⟩
    simp [etlStartup, moduleStartup, hall]
  · intro h
    have hall : [env "SUPABASE_URL", env "SUPABASE_KEY"].all truthyEnv
        = false := by
      rw [List.all_eq_false]
      rcases h with h | h
      · exact ⟨env "SUPABASE_URL", by simp, by simp [h, truthyEnv]⟩
      · exact ⟨env "SUPABASE_KEY", by simp, by simp [h, truthyEnv]⟩
    simp [analyticsStartup, moduleStartup, hall]

/-- Witness for `C10_missing_config_exits` with every variable absent. -/
theorem C10_missing_config_exits_witness :
    etlStartup (fun _ => none) = [Effect.logError, Effect.exitProcess] ∧
    analyticsStartup (fun _ => none) =
      [Effect.logError, Effect.exitProcess] :=
  ⟨((C10_missing_config_exits (fun _ => none)).1 (Or.inl rfl)).1,
    ((C10_missing_config_exits (fun _ => none)).2 (Or.inl rfl)).1⟩

end Metals
